import Mathlib

/-!
# Verification of the signet.rs EVM transaction encoding pipeline

Shallow embedding of `src/evm/evm_transaction.rs` and `src/evm/types.rs`:
the canonical transaction record, the RLP-based binary encoding engine
(`build_for_signing`, `build_with_signature`, `encode_fields`), and the
flexible JSON ingestion layer (`deserialize_address`, `from_json`,
`parse_u64`, `parse_u128`).

Bytes are modelled as `Nat` values (kept below 256 by construction or by
explicit hypotheses).  Strings handled by the Rust parsers are modelled as
`List Char`.  The `rlp` crate's `RlpStream` is modelled as an explicit
state machine (`RlpStream` below) following the length-prefix scheme in
spec section 4.3, which the crate implements.
-/

/-! ## Character-level parsing helpers -/

/-- Whitespace test used by Rust's `str::trim` (restricted to ASCII
whitespace, which is all that matters for the numeric strings here). -/
def isWsChar (c : Char) : Bool :=
  c = ' ' || c = '\t' || c = '\n' || c = '\r'

/-- Models Rust `str::trim`: drop whitespace from both ends. -/
def trim (cs : List Char) : List Char :=
  ((cs.dropWhile isWsChar).reverse.dropWhile isWsChar).reverse

/-- Models Rust `str::strip_prefix("0x")`: `some rest` when the string
starts with `0x`, `none` otherwise. -/
def strip0x : List Char → Option (List Char)
  | '0' :: 'x' :: rest => some rest
  | _ => none

def isDigitChar (c : Char) : Bool :=
  48 ≤ c.toNat && c.toNat ≤ 57

def digitVal (c : Char) : Nat := c.toNat - 48

/-- Decimal parse of a nonempty all-digit string (models the success cases
of Rust `str::parse::<uN>` before the width bound is applied; the optional
leading `+` sign accepted by Rust is not modelled, which only shrinks the
accepted set and is not relied on by any claim). -/
def parseDecNat (cs : List Char) : Option Nat :=
  if cs.isEmpty || !cs.all isDigitChar then none
  else some (cs.foldl (fun a c => 10 * a + digitVal c) 0)

/-- Value of one hexadecimal digit, upper or lower case. -/
def hexDigitVal (c : Char) : Option Nat :=
  if 48 ≤ c.toNat && c.toNat ≤ 57 then some (c.toNat - 48)
  else if 97 ≤ c.toNat && c.toNat ≤ 102 then some (c.toNat - 87)
  else if 65 ≤ c.toNat && c.toNat ≤ 70 then some (c.toNat - 55)
  else none

/-- Hexadecimal parse of a nonempty hex string (models the success cases of
Rust `uN::from_str_radix(s, 16)` before the width bound is applied). -/
def parseHexNat (cs : List Char) : Option Nat :=
  if cs.isEmpty then none
  else cs.foldl
    (fun acc c =>
      match acc, hexDigitVal c with
      | some a, some d => some (16 * a + d)
      | _, _ => none)
    (some 0)

/-- Models `hex::decode`: pairs of hex digits to bytes; fails on odd length
or a non-hex character.  The empty string decodes to the empty byte
sequence. -/
def hexDecode : List Char → Option (List Nat)
  | [] => some []
  | c1 :: c2 :: rest =>
    match hexDigitVal c1, hexDigitVal c2, hexDecode rest with
    | some h, some l, some bs => some ((16 * h + l) :: bs)
    | _, _, _ => none
  | [_] => none

/-- Bound filter: models the overflow failure of Rust integer parsing
(`ParseIntError` on a value that does not fit the target width). -/
def boundOpt (bound : Nat) : Option Nat → Option Nat
  | some n => if n < bound then some n else none
  | none => none

/-- Embeds `parse_u64` (src/evm/evm_transaction.rs lines 192-197): a
`0x`-prefixed string is parsed as hexadecimal, otherwise decimal; the
result must fit in 64 bits. -/
def parse_u64 (s : List Char) : Option Nat :=
  match strip0x s with
  | some hexStr => boundOpt (2 ^ 64) (parseHexNat hexStr)
  | none => boundOpt (2 ^ 64) (parseDecNat s)

/-- Embeds `parse_u128` (src/evm/evm_transaction.rs lines 199-204). -/
def parse_u128 (s : List Char) : Option Nat :=
  match strip0x s with
  | some hexStr => boundOpt (2 ^ 128) (parseHexNat hexStr)
  | none => boundOpt (2 ^ 128) (parseDecNat s)

/-! ## Decimal / hexadecimal printing (used to state ingestion claims) -/

/-- Big-endian decimal digits of a natural number (always nonempty). -/
def natToDec (n : Nat) : List Nat :=
  if _h : n < 10 then [n]
  else natToDec (n / 10) ++ [n % 10]
decreasing_by exact Nat.div_lt_self (by omega) (by omega)

def digitChar (d : Nat) : Char := Char.ofNat (48 + d)

/-- Decimal string of a natural number. -/
def decChars (n : Nat) : List Char := (natToDec n).map digitChar

/-- Lower-case hex digit character. -/
def hexDigitChar (d : Nat) : Char :=
  if d < 10 then Char.ofNat (48 + d) else Char.ofNat (87 + d)

/-- Lower-case hex string of a byte sequence, two digits per byte. -/
def hexEncode : List Nat → List Char
  | [] => []
  | b :: rest => hexDigitChar (b / 16) :: hexDigitChar (b % 16) :: hexEncode rest

/-! ## Minimal big-endian integer bytes -/

/-- Fuel-driven worker for `beBytes` (fuel makes the definition
structurally recursive, hence kernel-reducible). -/
def beBytesAux : Nat → Nat → List Nat
  | 0, _ => []
  | _ + 1, 0 => []
  | fuel + 1, n + 1 => beBytesAux fuel ((n + 1) / 256) ++ [(n + 1) % 256]

/-- Minimal big-endian byte representation of an unsigned integer, zero
encoding as the empty byte string (spec section 4.3; this is the integer
byte representation the `rlp` crate uses for `u8`/`u64`/`u128`). -/
def beBytes (n : Nat) : List Nat := beBytesAux n n

/-- Big-endian value of a byte sequence. -/
def natOfBe (l : List Nat) : Nat := l.foldl (fun a b => 256 * a + b) 0

/-! ## RLP encoding (spec section 4.3; the scheme the `rlp` crate implements) -/

/-- Length prefix with the given offset: a single byte for payload lengths
under 56, otherwise a length-of-length byte followed by the big-endian
length.  String offset is 128 (0x80), list offset 192 (0xc0). -/
def encLen (offset len : Nat) : List Nat :=
  if len < 56 then [offset + len]
  else (offset + 55 + (beBytes len).length) :: beBytes len

/-- Header of the RLP encoding of a byte string: empty for a single byte
below 0x80 (the byte is its own encoding), otherwise the string length
prefix. -/
def rlpStrHeader (bs : List Nat) : List Nat :=
  match bs with
  | [b] => if b < 128 then [] else [129]
  | _ => encLen 128 bs.length

/-- RLP encoding of a byte string: header followed by the raw bytes. -/
def rlpEncBytes (bs : List Nat) : List Nat := rlpStrHeader bs ++ bs

/-- RLP encoding of an unsigned integer: the byte-string encoding of its
minimal big-endian representation. -/
def rlpEncUint (n : Nat) : List Nat := rlpEncBytes (beBytes n)

/-- RLP list header for a payload of the given length. -/
def rlpListHeader (payloadLen : Nat) : List Nat := encLen 192 payloadLen

/-- RLP list encoding of an already-encoded payload. -/
def rlpListWrap (payload : List Nat) : List Nat :=
  rlpListHeader payload.length ++ payload

/-! ## The RlpStream state machine

Models the `rlp` crate's `RlpStream` as used by the encoding engine:
`append` pushes an item's encoding onto the buffer;
`begin_unbounded_list` records the current buffer position;
`finalize_unbounded_list` measures the bytes produced since the matching
begin and inserts the list length prefix there (spec section 4.3's
"begin/finalize variable-length list" primitive). -/

structure RlpStream where
  buffer : List Nat
  pending : List Nat
  deriving Repr

def RlpStream.new : RlpStream := ⟨[], []⟩

/-- Models `rlp_stream.append(&bytes)` for a byte-string item. -/
def RlpStream.appendBytes (s : RlpStream) (bs : List Nat) : RlpStream :=
  ⟨s.buffer ++ rlpEncBytes bs, s.pending⟩

/-- Models `rlp_stream.append(&n)` for an unsigned-integer item. -/
def RlpStream.appendUint (s : RlpStream) (n : Nat) : RlpStream :=
  s.appendBytes (beBytes n)

/-- Models `rlp_stream.begin_unbounded_list()`. -/
def RlpStream.beginUnboundedList (s : RlpStream) : RlpStream :=
  ⟨s.buffer, s.buffer.length :: s.pending⟩

/-- Models `rlp_stream.finalize_unbounded_list()`: wrap everything pushed
since the matching begin in a list length prefix. -/
def RlpStream.finalizeUnboundedList (s : RlpStream) : RlpStream :=
  match s.pending with
  | [] => s
  | pos :: rest =>
    ⟨s.buffer.take pos ++ rlpListHeader (s.buffer.drop pos).length ++ s.buffer.drop pos,
     rest⟩

/-- Models `rlp_stream.out().to_vec()`. -/
def RlpStream.out (s : RlpStream) : List Nat := s.buffer

/-! ## The canonical transaction record (src/evm/types.rs, evm_transaction.rs) -/

/-- Modelled from the spec: `crate::constants::EIP_1559_TYPE` is not under
src/; per spec section 4.3 the signing payload starts with "one leading
type-identifier byte" of the type-tagged EIP-1559-style transaction,
which is 2. -/
def EIP_1559_TYPE : Nat := 2

/-- Embeds `Signature` (src/evm/types.rs lines 15-19): `v` is a u64,
`r` and `s` are byte sequences passed through without length enforcement. -/
structure Signature where
  v : Nat
  r : List Nat
  s : List Nat
  deriving Repr, DecidableEq

/-- Embeds `EVMTransaction` (src/evm/evm_transaction.rs lines 52-69).
An address (`Address = [u8; 20]`) is a 20-byte list; the access list is a
list of (address, storage keys) pairs with 32-byte keys. -/
structure EVMTransaction where
  chain_id : Nat
  nonce : Nat
  «to» : Option (List Nat)
  value : Nat
  input : List Nat
  gas_limit : Nat
  max_fee_per_gas : Nat
  max_priority_fee_per_gas : Nat
  access_list : List (List Nat × List (List Nat))
  deriving Repr, DecidableEq

/-- Body of the access-list loop in `encode_fields`
(src/evm/evm_transaction.rs lines 120-132): a nested list
`[address, [storage_key, ...]]` per entry. -/
def encodeAccessItem (s : RlpStream) (access : List Nat × List (List Nat)) : RlpStream :=
  let s := s.beginUnboundedList
  let s := s.appendBytes access.1
  let s := s.beginUnboundedList
  let s := access.2.foldl (fun s k => s.appendBytes k) s
  let s := s.finalizeUnboundedList
  s.finalizeUnboundedList

/-- Embeds `EVMTransaction::encode_fields`
(src/evm/evm_transaction.rs lines 104-135). -/
def EVMTransaction.encode_fields (tx : EVMTransaction) (s : RlpStream) : RlpStream :=
  let «to» : List Nat := match tx.«to» with | some a => a | none => []
  let s := s.appendUint tx.chain_id
  let s := s.appendUint tx.nonce
  let s := s.appendUint tx.max_priority_fee_per_gas
  let s := s.appendUint tx.max_fee_per_gas
  let s := s.appendUint tx.gas_limit
  let s := s.appendBytes «to»
  let s := s.appendUint tx.value
  let s := s.appendBytes tx.input
  let s := s.beginUnboundedList
  let s := tx.access_list.foldl encodeAccessItem s
  s.finalizeUnboundedList

/-- Embeds `EVMTransaction::build_for_signing`
(src/evm/evm_transaction.rs lines 72-84). -/
def EVMTransaction.build_for_signing (tx : EVMTransaction) : List Nat :=
  let s := RlpStream.new
  let s := s.appendUint EIP_1559_TYPE
  let s := s.beginUnboundedList
  let s := tx.encode_fields s
  let s := s.finalizeUnboundedList
  s.out

/-- Embeds `EVMTransaction::build_with_signature`
(src/evm/evm_transaction.rs lines 86-102): same fields, then `v` as an
integer item and `r`, `s` as byte-string items, inside the same outer
list. -/
def EVMTransaction.build_with_signature (tx : EVMTransaction) (signature : Signature) :
    List Nat :=
  let s := RlpStream.new
  let s := s.appendUint EIP_1559_TYPE
  let s := s.beginUnboundedList
  let s := tx.encode_fields s
  let s := s.appendUint signature.v
  let s := s.appendBytes signature.r
  let s := s.appendBytes signature.s
  let s := s.finalizeUnboundedList
  s.out

/-! ## Spec-level description of the payload (direct concatenation,
written from the spec's layout sentences, to be compared with the
stream-machine output) -/

/-- Storage-key list of one access-list entry, as a nested RLP list of the
raw 32-byte keys. -/
def specStorageKeysEnc (keys : List (List Nat)) : List Nat :=
  rlpListWrap (List.flatten (keys.map rlpEncBytes))

/-- One access-list entry as the nested list `[address, [storage_key, ...]]`. -/
def specAccessEntryEnc (e : List Nat × List (List Nat)) : List Nat :=
  rlpListWrap (rlpEncBytes e.1 ++ specStorageKeysEnc e.2)

/-- The access list as a list of entry encodings. -/
def specAccessListEnc (al : List (List Nat × List (List Nat))) : List Nat :=
  rlpListWrap (List.flatten (al.map specAccessEntryEnc))

/-- The nine field encodings of the outer list, in the order of spec
section 4.3: chain_id, nonce, max_priority_fee_per_gas, max_fee_per_gas,
gas_limit, to (raw bytes or empty), value, input, access_list. -/
def specFieldsPayload (tx : EVMTransaction) : List Nat :=
  rlpEncUint tx.chain_id ++
  rlpEncUint tx.nonce ++
  rlpEncUint tx.max_priority_fee_per_gas ++
  rlpEncUint tx.max_fee_per_gas ++
  rlpEncUint tx.gas_limit ++
  rlpEncBytes (match tx.«to» with | some a => a | none => []) ++
  rlpEncUint tx.value ++
  rlpEncBytes tx.input ++
  specAccessListEnc tx.access_list

/-! ## JSON values (the `serde_json::Value` fragment the ingestion layer
inspects) -/

/-- Model of `serde_json::Value`.  `numU n` is a JSON number that is a
non-negative integer (serde stores it in the u64 arm when it fits);
`numOther` stands for any other number (negative, fractional), for which
`is_u64`/`as_u64` fail.  Strings are `List Char` so the Rust character
parsers can be modelled directly; object keys are `String`. -/
inductive Json where
  | null
  | bool (b : Bool)
  | numU (n : Nat)
  | numOther
  | str (s : List Char)
  | arr (elems : List Json)
  | obj (fields : List (String × Json))

/-- Models `serde_json::Value` indexing `v[key]`: field lookup on an
object, `Null` on a missing key or a non-object. -/
def Json.get (j : Json) (key : String) : Json :=
  match j with
  | .obj fields =>
    match fields.find? (fun kv => kv.fst == key) with
    | some kv => kv.snd
    | none => .null
  | _ => .null

/-- Models `Value::as_str`. -/
def Json.as_str : Json → Option (List Char)
  | .str s => some s
  | _ => none

/-- Models `Value::is_null`. -/
def Json.is_null : Json → Bool
  | .null => true
  | _ => false

/-- Models `Value::as_array`. -/
def Json.as_array : Json → Option (List Json)
  | .arr elems => some elems
  | _ => none

/-- Models `Value::is_u64`. -/
def Json.is_u64 : Json → Bool
  | .numU n => decide (n < 2 ^ 64)
  | _ => false

/-- Models `Value::as_u64`. -/
def Json.as_u64 : Json → Option Nat
  | .numU n => if n < 2 ^ 64 then some n else none
  | _ => none

/-- Models `Value::is_string`. -/
def Json.is_string : Json → Bool
  | .str _ => true
  | _ => false

/-- Models a serde deserialization error as the (unexpected, expected)
pair the source builds with `invalid_type` / `invalid_value` /
`invalid_length`. -/
structure DeErr where
  unexpected : String
  expected : String
  deriving Repr, DecidableEq

/-- Models Rust `s.parse::<u8>()` on a decimal string: value must fit in
8 bits. -/
def parseU8 (cs : List Char) : Option Nat := boundOpt 256 (parseDecNat cs)

/-- The element loop of the `[133, 138, ...]` case of `deserialize_address`
(src/evm/evm_transaction.rs lines 228-235): each element is read with
`as_u64` and stored with `out[i] = n as u8`, i.e. reduced mod 256. -/
def u64ArrayToBytes : List Json → Except DeErr (List Nat)
  | [] => .ok []
  | v :: rest =>
    match v.as_u64 with
    | none => .error ⟨"not a u64", "u8"⟩
    | some n =>
      match u64ArrayToBytes rest with
      | .ok bs => .ok ((n % 256) :: bs)
      | .error e => .error e

/-- The element loop of the `["133", "138", ...]` case of
`deserialize_address` (src/evm/evm_transaction.rs lines 239-254): each
element is read with `as_str`, trimmed, and parsed with `parse::<u8>()`. -/
def strArrayToBytes : List Json → Except DeErr (List Nat)
  | [] => .ok []
  | v :: rest =>
    match v.as_str with
    | none => .error ⟨"not a string", "string"⟩
    | some s =>
      match parseU8 (trim s) with
      | none => .error ⟨String.mk (trim s), "a string representing a u8"⟩
      | some b =>
        match strArrayToBytes rest with
        | .ok bs => .ok (b :: bs)
        | .error e => .error e

/-- Embeds `deserialize_address` (src/evm/evm_transaction.rs lines
206-267): `null` means an absent address; an array must have exactly 20
elements and be all-integer or all-string; anything else is a typed
deserialization error. -/
def deserialize_address (value : Json) : Except DeErr (Option (List Nat)) :=
  if value.is_null then .ok none
  else
    match value.as_array with
    | some arr =>
      if arr.length ≠ 20 then
        .error ⟨toString arr.length, "20-byte address"⟩
      else if arr.all Json.is_u64 then
        match u64ArrayToBytes arr with
        | .ok out => .ok (some out)
        | .error e => .error e
      else if arr.all Json.is_string then
        match strArrayToBytes arr with
        | .ok out => .ok (some out)
        | .error e => .error e
      else
        .error ⟨"invalid address format", "array of u8 or array of numeric strings"⟩
    | none => .error ⟨"unexpected format for address", "null or array of 20 bytes"⟩

/-! ## from_json -/

/-- Outcome of `EVMTransaction::from_json`: a record, a returned
`serde_json::Error` (the `Err` channel of the Rust signature), or an
unconditional abort (`expect`/`unwrap` panic). -/
inductive FromJsonResult (α : Type) where
  | ok (a : α)
  | err (msg : String)
  | panic (msg : String)
  deriving Repr, DecidableEq

def FromJsonResult.bind {α β : Type} :
    FromJsonResult α → (α → FromJsonResult β) → FromJsonResult β
  | .ok a, f => f a
  | .err m, _ => .err m
  | .panic m, _ => .panic m

/-- Models `option.expect(msg)` on the result of a fallible parse. -/
def expectSome {α : Type} (o : Option α) (msg : String) : FromJsonResult α :=
  match o with
  | some a => .ok a
  | none => .panic msg

/-- Models `value.as_str().expect(msg)`. -/
def expectStr (j : Json) (msg : String) : FromJsonResult (List Char) :=
  match j.as_str with
  | some s => .ok s
  | none => .panic msg

/-- The default address string of `from_json`
(`"0000000000000000000000000000000000000000"`, 40 zeros). -/
def fortyZeros : List Char := List.replicate 40 '0'

/-- Modelled from the spec: `parse_eth_address` lives in
`src/evm/utils.rs`, which is not under src/; per spec section 4.2 a
40-hex-character string decodes to the canonical 20-byte address, and a
malformed string is a hard failure (modelled as `none`, which `from_json`
turns into an abort). -/
def parse_eth_address (s : List Char) : Option (List Nat) :=
  if s.length = 40 then hexDecode s else none

/-- Embeds `EVMTransaction::from_json` (src/evm/evm_transaction.rs lines
137-189) after the `serde_json::from_str` step (text-level JSON parse
failures use the `err` channel upstream and are not modelled; every
failure below is an `expect` abort).  Field order and defaulting follow
the source exactly: a missing/non-string `to` defaults to the empty
string, a `to` without the `0x` prefix is replaced by the 40-zero string,
required numeric fields abort when missing or unparseable, and `input`
defaults to the empty hex string. -/
def EVMTransaction.from_json (v : Json) : FromJsonResult EVMTransaction :=
  let toStr := ((Json.get v "to").as_str).getD []
  FromJsonResult.bind
    (expectSome (parse_eth_address ((strip0x toStr).getD fortyZeros))
      "invalid eth address") fun to_parsed =>
  FromJsonResult.bind (expectStr (Json.get v "nonce") "nonce should be provided")
    fun nonce_str =>
  FromJsonResult.bind (expectSome (parse_u64 nonce_str) "nonce should be a valid u64")
    fun nonce =>
  FromJsonResult.bind (expectStr (Json.get v "value") "value should be provided")
    fun value_str =>
  FromJsonResult.bind (expectSome (parse_u128 value_str) "value should be a valid u128")
    fun value =>
  FromJsonResult.bind (expectStr (Json.get v "gasLimit") "gasLimit should be provided")
    fun gas_limit_str =>
  FromJsonResult.bind
    (expectSome (parse_u128 gas_limit_str) "gasLimit should be a valid u128")
    fun gas_limit =>
  FromJsonResult.bind
    (expectStr (Json.get v "maxPriorityFeePerGas")
      "maxPriorityFeePerGas should be provided") fun mpfg_str =>
  FromJsonResult.bind
    (expectSome (parse_u128 mpfg_str) "maxPriorityFeePerGas should be a valid u128")
    fun max_priority_fee_per_gas =>
  FromJsonResult.bind
    (expectStr (Json.get v "maxFeePerGas") "maxFeePerGas should be provided")
    fun mfg_str =>
  FromJsonResult.bind
    (expectSome (parse_u128 mfg_str) "maxFeePerGas should be a valid u128")
    fun max_fee_per_gas =>
  FromJsonResult.bind (expectStr (Json.get v "chainId") "chainId should be provided")
    fun chain_id_str =>
  FromJsonResult.bind
    (expectSome (parse_u64 chain_id_str) "chainId should be a valid u64")
    fun chain_id =>
  let inputStr := ((Json.get v "input").as_str).getD []
  FromJsonResult.bind
    (expectSome (hexDecode ((strip0x inputStr).getD [])) "input should be hex")
    fun input =>
  .ok
    { chain_id := chain_id
      nonce := nonce
      «to» := some to_parsed
      value := value
      input := input
      gas_limit := gas_limit
      max_fee_per_gas := max_fee_per_gas
      max_priority_fee_per_gas := max_priority_fee_per_gas
      access_list := [] }

/-! ## Facts about the minimal big-endian integer bytes -/

theorem beBytesAux_mono : ∀ (f1 f2 n : Nat), n ≤ f1 → n ≤ f2 →
    beBytesAux f1 n = beBytesAux f2 n := by
  intro f1
  induction f1 with
  | zero =>
    intro f2 n h1 _h2
    have hn : n = 0 := Nat.le_zero.mp h1
    subst hn
    cases f2 <;> rfl
  | succ g ih =>
    intro f2 n h1 h2
    cases n with
    | zero => cases f2 <;> rfl
    | succ m =>
      cases f2 with
      | zero => omega
      | succ g2 =>
        show beBytesAux g ((m + 1) / 256) ++ _ = beBytesAux g2 ((m + 1) / 256) ++ _
        have hdiv : (m + 1) / 256 ≤ m := by
          have := Nat.div_lt_self (Nat.succ_pos m) (by omega : 1 < 256)
          omega
        rw [ih g2 ((m + 1) / 256) (by omega) (by omega)]

theorem beBytes_succ (m : Nat) :
    beBytes (m + 1) = beBytes ((m + 1) / 256) ++ [(m + 1) % 256] := by
  show beBytesAux (m + 1) (m + 1) = beBytesAux ((m + 1) / 256) ((m + 1) / 256) ++ _
  show beBytesAux m ((m + 1) / 256) ++ _ = _
  have hdiv : (m + 1) / 256 ≤ m := by
    have := Nat.div_lt_self (Nat.succ_pos m) (by omega : 1 < 256)
    omega
  rw [beBytesAux_mono m ((m + 1) / 256) ((m + 1) / 256) hdiv (Nat.le_refl _)]

theorem beBytes_zero : beBytes 0 = [] := rfl

theorem beBytes_ne_nil (m : Nat) : beBytes (m + 1) ≠ [] := by
  rw [beBytes_succ]
  simp

/-- The leading (most significant) byte of a nonzero integer's minimal
big-endian representation is nonzero. -/
theorem beBytes_head_ne_zero : ∀ m : Nat, (beBytes (m + 1)).head? ≠ some 0 := by
  intro m
  induction m using Nat.strong_induction_on with
  | _ m ih =>
    rw [beBytes_succ]
    rcases hq : (m + 1) / 256 with _ | k
    · have hlt : m + 1 < 256 := by
        rcases Nat.lt_or_ge (m + 1) 256 with h | h
        · exact h
        · exfalso
          have : 1 ≤ (m + 1) / 256 := (Nat.one_le_div_iff (by omega)).mpr h
          omega
      rw [beBytes_zero]
      simp [Nat.mod_eq_of_lt hlt]
    · have hk : k < m := by
        have := Nat.div_lt_self (Nat.succ_pos m) (by omega : 1 < 256)
        omega
      have hne := beBytes_ne_nil k
      rcases List.exists_cons_of_ne_nil hne with ⟨b, bs, hb⟩
      have hhd := ih k hk
      rw [hb] at hhd ⊢
      simpa using hhd

theorem natOfBe_append_singleton (xs : List Nat) (d : Nat) :
    natOfBe (xs ++ [d]) = 256 * natOfBe xs + d := by
  simp [natOfBe, List.foldl_append]

/-- The minimal big-endian bytes of `n` represent exactly `n`. -/
theorem natOfBe_beBytes : ∀ n : Nat, natOfBe (beBytes n) = n := by
  intro n
  induction n using Nat.strong_induction_on with
  | _ n ih =>
    cases n with
    | zero => rfl
    | succ m =>
      rw [beBytes_succ, natOfBe_append_singleton]
      have hlt : (m + 1) / 256 < m + 1 := Nat.div_lt_self (Nat.succ_pos m) (by omega)
      rw [ih _ hlt]
      exact Nat.div_add_mod (m + 1) 256

/-! ## Framing the stream machine: relating the begin/finalize primitive
to direct payload concatenation -/

/-- An encoder step `f` emits the byte segment `p`: it appends exactly `p`
to any stream's buffer and leaves the stack of open lists alone. -/
def Emits (f : RlpStream → RlpStream) (p : List Nat) : Prop :=
  ∀ s, (f s).buffer = s.buffer ++ p ∧ (f s).pending = s.pending

theorem emits_appendBytes (bs : List Nat) :
    Emits (fun s => s.appendBytes bs) (rlpEncBytes bs) :=
  fun _ => ⟨rfl, rfl⟩

theorem emits_appendUint (n : Nat) :
    Emits (fun s => s.appendUint n) (rlpEncUint n) :=
  fun _ => ⟨rfl, rfl⟩

theorem emits_comp {f g : RlpStream → RlpStream} {p q : List Nat}
    (hf : Emits f p) (hg : Emits g q) : Emits (fun s => g (f s)) (p ++ q) := by
  intro s
  obtain ⟨hb, hp⟩ := hf s
  obtain ⟨hb2, hp2⟩ := hg (f s)
  exact ⟨by rw [hb2, hb, List.append_assoc], by rw [hp2, hp]⟩

theorem finalize_of_pending (t : RlpStream) (pos : Nat) (rest : List Nat)
    (h : t.pending = pos :: rest) :
    t.finalizeUnboundedList =
      ⟨t.buffer.take pos ++ rlpListHeader (t.buffer.drop pos).length ++ t.buffer.drop pos,
       rest⟩ := by
  cases t with
  | mk buf pend =>
    simp only at h
    subst h
    rfl

/-- A begin/finalize pair around an emitter wraps its payload in a list
length prefix: the "serialize children, measure, prefix" pattern of spec
section 4.3. -/
theorem emits_wrap {f : RlpStream → RlpStream} {p : List Nat} (hf : Emits f p) :
    Emits (fun s => (f s.beginUnboundedList).finalizeUnboundedList) (rlpListWrap p) := by
  intro s
  obtain ⟨hb, hp⟩ := hf s.beginUnboundedList
  have hbuf : (f s.beginUnboundedList).buffer = s.buffer ++ p := hb
  have hpend : (f s.beginUnboundedList).pending = s.buffer.length :: s.pending := hp
  constructor
  · show ((f s.beginUnboundedList).finalizeUnboundedList).buffer = _
    rw [finalize_of_pending _ _ _ hpend]
    simp only [hbuf]
    rw [List.take_left, List.drop_left]
    simp [rlpListWrap]
  · show ((f s.beginUnboundedList).finalizeUnboundedList).pending = _
    rw [finalize_of_pending _ _ _ hpend]

theorem emits_foldl {α : Type} (step : RlpStream → α → RlpStream) (enc : α → List Nat)
    (hstep : ∀ x, Emits (fun s => step s x) (enc x)) :
    ∀ l : List α, Emits (fun s => l.foldl step s) (List.flatten (l.map enc)) := by
  intro l
  induction l with
  | nil => intro s; simp
  | cons x xs ih =>
    intro s
    obtain ⟨hb, hp⟩ := hstep x s
    obtain ⟨hb2, hp2⟩ := ih (step s x)
    have hb' : (step s x).buffer = s.buffer ++ enc x := hb
    have hp' : (step s x).pending = s.pending := hp
    have hb2' : (List.foldl step (step s x) xs).buffer =
        (step s x).buffer ++ (List.map enc xs).flatten := hb2
    have hp2' : (List.foldl step (step s x) xs).pending = (step s x).pending := hp2
    refine ⟨?_, ?_⟩
    · show (List.foldl step (step s x) xs).buffer =
        s.buffer ++ (List.map enc (x :: xs)).flatten
      rw [hb2', hb']
      simp [List.append_assoc]
    · show (List.foldl step (step s x) xs).pending = s.pending
      rw [hp2', hp']

theorem emits_accessItem (e : List Nat × List (List Nat)) :
    Emits (fun s => encodeAccessItem s e) (specAccessEntryEnc e) := by
  have hkeys := emits_foldl (fun s k => s.appendBytes k) rlpEncBytes
    (fun k => emits_appendBytes k) e.2
  have hinner := emits_wrap hkeys
  have haddr := emits_appendBytes e.1
  have hcomp := emits_comp haddr hinner
  have houter := emits_wrap hcomp
  intro s
  have h := houter s
  simpa [encodeAccessItem, specAccessEntryEnc, specStorageKeysEnc] using h

theorem emits_encode_fields (tx : EVMTransaction) :
    Emits (fun s => tx.encode_fields s) (specFieldsPayload tx) := by
  have h1 := emits_appendUint tx.chain_id
  have h2 := emits_appendUint tx.nonce
  have h3 := emits_appendUint tx.max_priority_fee_per_gas
  have h4 := emits_appendUint tx.max_fee_per_gas
  have h5 := emits_appendUint tx.gas_limit
  have h6 := emits_appendBytes (match tx.«to» with | some a => a | none => [])
  have h7 := emits_appendUint tx.value
  have h8 := emits_appendBytes tx.input
  have hal := emits_wrap (emits_foldl encodeAccessItem specAccessEntryEnc
    emits_accessItem tx.access_list)
  have hseq :=
    emits_comp (emits_comp (emits_comp (emits_comp (emits_comp (emits_comp
      (emits_comp (emits_comp h1 h2) h3) h4) h5) h6) h7) h8) hal
  intro s
  have h := hseq s
  simpa [EVMTransaction.encode_fields, specFieldsPayload, specAccessListEnc,
    List.append_assoc] using h

theorem rlpEncUint_type_byte : rlpEncUint EIP_1559_TYPE = [EIP_1559_TYPE] := rfl

/-- The signing payload is the type byte followed by the RLP list of the
nine field encodings. -/
theorem build_for_signing_eq (tx : EVMTransaction) :
    tx.build_for_signing = EIP_1559_TYPE :: rlpListWrap (specFieldsPayload tx) := by
  have h := emits_wrap (emits_encode_fields tx) (RlpStream.new.appendUint EIP_1559_TYPE)
  show (RlpStream.finalizeUnboundedList
    (tx.encode_fields (RlpStream.new.appendUint EIP_1559_TYPE).beginUnboundedList)).buffer = _
  rw [h.1]
  rfl

/-- The signed payload is the type byte followed by the RLP list of the
nine field encodings, then the encodings of `v`, `r`, `s`. -/
theorem build_with_signature_eq (tx : EVMTransaction) (sig : Signature) :
    tx.build_with_signature sig =
      EIP_1559_TYPE ::
        rlpListWrap (specFieldsPayload tx ++
          (rlpEncUint sig.v ++ rlpEncBytes sig.r ++ rlpEncBytes sig.s)) := by
  have hsig := emits_comp (emits_comp (emits_appendUint sig.v)
    (emits_appendBytes sig.r)) (emits_appendBytes sig.s)
  have hseq := emits_comp (emits_encode_fields tx) hsig
  have h := emits_wrap hseq (RlpStream.new.appendUint EIP_1559_TYPE)
  show (RlpStream.finalizeUnboundedList
    ((((tx.encode_fields (RlpStream.new.appendUint EIP_1559_TYPE).beginUnboundedList)).appendUint
      sig.v).appendBytes sig.r |>.appendBytes sig.s)).buffer = _
  rw [h.1]
  simp [List.append_assoc]
  rfl

/-! ## Claims C1-C3: the binary encoding engine -/

/-- C1: for every EVMTransaction record, `build_for_signing` returns
exactly one leading type-identifier byte followed by one RLP outer list
containing, in this exact order: chain_id, nonce,
max_priority_fee_per_gas, max_fee_per_gas, gas_limit, to (the raw 20
bytes when present, the empty byte string when absent), value, input, and
the access_list as a nested list of [address, [storage_key, ...]]
entries; every unsigned-integer field is encoded via its minimal
big-endian byte representation (`beBytes`), which has no leading zero
byte, represents the value exactly, and encodes zero as the empty byte
string. -/
theorem claim_C1_build_for_signing_layout (tx : EVMTransaction) :
    tx.build_for_signing = EIP_1559_TYPE :: rlpListWrap (specFieldsPayload tx) ∧
    beBytes 0 = [] ∧
    (∀ n : Nat, (beBytes (n + 1)).head? ≠ some 0) ∧
    (∀ n : Nat, natOfBe (beBytes n) = n) :=
  ⟨build_for_signing_eq tx, rfl, beBytes_head_ne_zero, natOfBe_beBytes⟩

/-- Concrete transaction used to instantiate the encoding claims: a
nonempty input and a one-entry access list exercise the nested-list
encoders. -/
def txEx : EVMTransaction :=
  { chain_id := 1
    nonce := 66
    «to» := some (List.replicate 20 7)
    value := 10000000000000000
    input := [1, 2, 3]
    gas_limit := 21000
    max_fee_per_gas := 20000000000
    max_priority_fee_per_gas := 1000000000
    access_list := [(List.replicate 20 8, [List.replicate 32 9])] }

theorem claim_C1_witness :
    txEx.build_for_signing = EIP_1559_TYPE :: rlpListWrap (specFieldsPayload txEx) ∧
    beBytes 0 = [] ∧
    (beBytes (299 + 1)).head? ≠ some 0 ∧
    natOfBe (beBytes 300) = 300 :=
  ⟨(claim_C1_build_for_signing_layout txEx).1,
   (claim_C1_build_for_signing_layout txEx).2.1,
   (claim_C1_build_for_signing_layout txEx).2.2.1 299,
   (claim_C1_build_for_signing_layout txEx).2.2.2 300⟩

/-- C2: for every record and every signature, the signed payload has the
same type-identifier byte and the same nine field encodings, in the same
order, as the signing payload, followed by exactly the encodings of `v`,
`r`, `s` as the last three items of the same outer list; only the outer
list-length prefix differs. -/
theorem claim_C2_signed_extends_signing (tx : EVMTransaction) (sig : Signature) :
    tx.build_for_signing = EIP_1559_TYPE :: rlpListWrap (specFieldsPayload tx) ∧
    tx.build_with_signature sig =
      EIP_1559_TYPE ::
        rlpListWrap (specFieldsPayload tx ++
          (rlpEncUint sig.v ++ rlpEncBytes sig.r ++ rlpEncBytes sig.s)) :=
  ⟨build_for_signing_eq tx, build_with_signature_eq tx sig⟩

/-- Concrete signature used to instantiate the signed-payload claims; `r`
carries a leading zero byte to exercise raw pass-through. -/
def sigEx : Signature :=
  { v := 1
    r := 0 :: List.replicate 31 7
    s := List.replicate 32 9 }

theorem claim_C2_witness :
    txEx.build_for_signing = EIP_1559_TYPE :: rlpListWrap (specFieldsPayload txEx) ∧
    txEx.build_with_signature sigEx =
      EIP_1559_TYPE ::
        rlpListWrap (specFieldsPayload txEx ++
          (rlpEncUint sigEx.v ++ rlpEncBytes sigEx.r ++ rlpEncBytes sigEx.s)) :=
  claim_C2_signed_extends_signing txEx sigEx

/-- C3: `build_with_signature` encodes `v` as a minimal big-endian
integer (`beBytes`, zero encoding as the empty byte string, never with a
leading zero byte) and encodes `r` and `s` as raw byte strings exactly as
supplied: the signed payload contains the bytes of `r` and of `s`
verbatim after their string headers, with no re-encoding. -/
theorem claim_C3_raw_signature_bytes (tx : EVMTransaction) (sig : Signature) :
    tx.build_with_signature sig =
      EIP_1559_TYPE ::
        rlpListWrap (specFieldsPayload tx ++
          ((rlpStrHeader (beBytes sig.v) ++ beBytes sig.v) ++
           ((rlpStrHeader sig.r ++ sig.r) ++ (rlpStrHeader sig.s ++ sig.s)))) ∧
    beBytes 0 = [] ∧
    (∀ n : Nat, (beBytes (n + 1)).head? ≠ some 0) := by
  refine ⟨?_, rfl, beBytes_head_ne_zero⟩
  have h := build_with_signature_eq tx sig
  simpa [rlpEncUint, rlpEncBytes, List.append_assoc] using h

theorem claim_C3_witness :
    txEx.build_with_signature sigEx =
      EIP_1559_TYPE ::
        rlpListWrap (specFieldsPayload txEx ++
          ((rlpStrHeader (beBytes sigEx.v) ++ beBytes sigEx.v) ++
           ((rlpStrHeader sigEx.r ++ sigEx.r) ++ (rlpStrHeader sigEx.s ++ sigEx.s)))) ∧
    beBytes 0 = [] ∧
    (beBytes (45 + 1)).head? ≠ some 0 :=
  ⟨(claim_C3_raw_signature_bytes txEx sigEx).1,
   (claim_C3_raw_signature_bytes txEx sigEx).2.1,
   (claim_C3_raw_signature_bytes txEx sigEx).2.2 45⟩

/-! ## Round-trip facts for the ingestion parsers -/

theorem hexDigitVal_hexDigitChar : ∀ d : Nat, d < 16 → hexDigitVal (hexDigitChar d) = some d := by
  decide

theorem hexEncode_length : ∀ bs : List Nat, (hexEncode bs).length = 2 * bs.length := by
  intro bs
  induction bs with
  | nil => rfl
  | cons b rest ih => simp [hexEncode, ih]; omega

theorem hexDecode_hexEncode :
    ∀ bs : List Nat, (∀ b ∈ bs, b < 256) → hexDecode (hexEncode bs) = some bs := by
  intro bs
  induction bs with
  | nil => intro _; rfl
  | cons b rest ih =>
    intro h
    have hb : b < 256 := h b (List.mem_cons_self b rest)
    have hhi : b / 16 < 16 := by omega
    have hlo : b % 16 < 16 := Nat.mod_lt _ (by omega)
    show hexDecode (hexDigitChar (b / 16) :: hexDigitChar (b % 16) :: hexEncode rest) = _
    rw [hexDecode]
    rw [hexDigitVal_hexDigitChar _ hhi, hexDigitVal_hexDigitChar _ hlo,
      ih (fun x hx => h x (List.mem_cons_of_mem b hx))]
    show some ((16 * (b / 16) + b % 16) :: rest) = some (b :: rest)
    rw [Nat.div_add_mod b 16]

theorem digitVal_digitChar : ∀ d : Nat, d < 10 → digitVal (digitChar d) = d := by
  decide

theorem isDigitChar_digitChar : ∀ d : Nat, d < 10 → isDigitChar (digitChar d) = true := by
  decide

theorem isWsChar_digitChar : ∀ d : Nat, d < 10 → isWsChar (digitChar d) = false := by
  decide

theorem natToDec_ne_nil (n : Nat) : natToDec n ≠ [] := by
  rw [natToDec]
  split <;> simp

theorem natToDec_digits_lt : ∀ n : Nat, ∀ d ∈ natToDec n, d < 10 := by
  intro n
  induction n using Nat.strong_induction_on with
  | _ n ih =>
    rw [natToDec]
    split
    · next h =>
      intro d hd
      simp at hd
      omega
    · next h =>
      intro d hd
      rw [List.mem_append] at hd
      rcases hd with hd | hd
      · exact ih (n / 10) (Nat.div_lt_self (by omega) (by omega)) d hd
      · simp at hd
        subst hd
        exact Nat.mod_lt _ (by omega)

theorem foldl_dec_natToDec : ∀ n : Nat,
    (natToDec n).foldl (fun a d => 10 * a + d) 0 = n := by
  intro n
  induction n using Nat.strong_induction_on with
  | _ n ih =>
    rw [natToDec]
    split
    · next h => simp
    · next h =>
      rw [List.foldl_append]
      rw [ih (n / 10) (Nat.div_lt_self (by omega) (by omega))]
      show 10 * (n / 10) + n % 10 = n
      omega

theorem foldl_digitChar (l : List Nat) (h : ∀ d ∈ l, d < 10) (a : Nat) :
    (l.map digitChar).foldl (fun acc c => 10 * acc + digitVal c) a =
      l.foldl (fun acc d => 10 * acc + d) a := by
  induction l generalizing a with
  | nil => rfl
  | cons d rest ih =>
    simp only [List.map_cons, List.foldl_cons]
    rw [digitVal_digitChar d (h d (List.mem_cons_self d rest))]
    exact ih (fun x hx => h x (List.mem_cons_of_mem d hx)) _

theorem parseDecNat_decChars (n : Nat) : parseDecNat (decChars n) = some n := by
  have hlt := natToDec_digits_lt n
  have hne := natToDec_ne_nil n
  have hdig : (decChars n).all isDigitChar = true := by
    rw [decChars, List.all_eq_true]
    intro c hc
    rw [List.mem_map] at hc
    obtain ⟨d, hd, rfl⟩ := hc
    exact isDigitChar_digitChar d (hlt d hd)
  have hempty : (decChars n).isEmpty = false := by
    rw [decChars]
    cases hd : natToDec n with
    | nil => exact absurd hd hne
    | cons a l => rfl
  rw [parseDecNat]
  rw [if_neg (by rw [hempty, hdig]; simp)]
  rw [decChars, foldl_digitChar _ hlt, foldl_dec_natToDec]

theorem trim_of_no_ws :
    ∀ cs : List Char, (∀ c ∈ cs, isWsChar c = false) → trim cs = cs := by
  have hdrop : ∀ l : List Char, (∀ c ∈ l, isWsChar c = false) →
      l.dropWhile isWsChar = l := by
    intro l hl
    cases l with
    | nil => rfl
    | cons c rest =>
      rw [List.dropWhile_cons, hl c (List.mem_cons_self c rest)]
      simp
  intro cs h
  rw [trim, hdrop cs h, hdrop]
  · exact List.reverse_reverse cs
  · intro c hc
    exact h c (List.mem_reverse.mp hc)

theorem trim_decChars (n : Nat) : trim (decChars n) = decChars n := by
  apply trim_of_no_ws
  intro c hc
  rw [decChars, List.mem_map] at hc
  obtain ⟨d, hd, rfl⟩ := hc
  exact isWsChar_digitChar d (natToDec_digits_lt n d hd)

theorem parseU8_decChars (b : Nat) (hb : b < 256) : parseU8 (decChars b) = some b := by
  rw [parseU8, parseDecNat_decChars, boundOpt, if_pos hb]

/-! ## Structure of the deserialize_address element loops -/

theorem u64ArrayToBytes_map (l : List Nat) (h : ∀ b ∈ l, b < 256) :
    u64ArrayToBytes (l.map Json.numU) = .ok l := by
  induction l with
  | nil => rfl
  | cons b rest ih =>
    have hb : b < 256 := h b (List.mem_cons_self b rest)
    show u64ArrayToBytes (Json.numU b :: rest.map Json.numU) = _
    rw [u64ArrayToBytes]
    have hu : (Json.numU b).as_u64 = some b := by
      rw [Json.as_u64, if_pos (by omega : b < 2 ^ 64)]
    rw [hu, ih (fun x hx => h x (List.mem_cons_of_mem b hx))]
    show Except.ok ((b % 256) :: rest) = Except.ok (b :: rest)
    rw [Nat.mod_eq_of_lt hb]

theorem strArrayToBytes_map (l : List Nat) (h : ∀ b ∈ l, b < 256) :
    strArrayToBytes (l.map (fun b => Json.str (decChars b))) = .ok l := by
  induction l with
  | nil => rfl
  | cons b rest ih =>
    have hb : b < 256 := h b (List.mem_cons_self b rest)
    show strArrayToBytes (Json.str (decChars b) :: rest.map _) = _
    rw [strArrayToBytes]
    show (match parseU8 (trim (decChars b)) with
      | none => Except.error _
      | some b =>
        match strArrayToBytes (rest.map (fun b => Json.str (decChars b))) with
        | .ok bs => Except.ok (b :: bs)
        | .error e => Except.error e) = _
    rw [trim_decChars, parseU8_decChars b hb,
      ih (fun x hx => h x (List.mem_cons_of_mem b hx))]

/-! ## Inversion facts for from_json -/

theorem bind_eq_ok_iff {α β : Type} {x : FromJsonResult α} {f : α → FromJsonResult β}
    {b : β} :
    FromJsonResult.bind x f = .ok b ↔ ∃ a, x = .ok a ∧ f a = .ok b := by
  cases x <;> simp [FromJsonResult.bind]

theorem expectSome_eq_ok {α : Type} {o : Option α} {m : String} {a : α} :
    expectSome o m = .ok a ↔ o = some a := by
  cases o <;> simp [expectSome]

theorem expectStr_eq_ok {j : Json} {m : String} {s : List Char} :
    expectStr j m = .ok s ↔ j.as_str = some s := by
  cases h : j.as_str <;> simp [expectStr, h]

theorem expectSome_shape {α : Type} (o : Option α) (m : String) :
    (∃ a, expectSome o m = .ok a) ∨ (∃ msg, expectSome o m = .panic msg) := by
  cases o with
  | none => exact Or.inr ⟨m, rfl⟩
  | some a => exact Or.inl ⟨a, rfl⟩

theorem expectStr_shape (j : Json) (m : String) :
    (∃ s, expectStr j m = .ok s) ∨ (∃ msg, expectStr j m = .panic msg) := by
  cases h : j.as_str with
  | none => exact Or.inr ⟨m, by simp [expectStr, h]⟩
  | some s => exact Or.inl ⟨s, by simp [expectStr, h]⟩

theorem bind_shape {α β : Type} (x : FromJsonResult α) (f : α → FromJsonResult β)
    (hx : (∃ a, x = .ok a) ∨ (∃ m, x = .panic m))
    (hf : ∀ a, (∃ b, f a = .ok b) ∨ (∃ m, f a = .panic m)) :
    (∃ b, x.bind f = .ok b) ∨ (∃ m, x.bind f = .panic m) := by
  rcases hx with ⟨a, rfl⟩ | ⟨m, rfl⟩
  · simpa [FromJsonResult.bind] using hf a
  · exact Or.inr ⟨m, rfl⟩

/-- `from_json` never uses the returned-error channel: after the JSON text
has parsed, every outcome is a record or an `expect` abort. -/
theorem from_json_cases (v : Json) :
    (∃ r, EVMTransaction.from_json v = .ok r) ∨
      (∃ m, EVMTransaction.from_json v = .panic m) := by
  unfold EVMTransaction.from_json
  refine bind_shape _ _ (expectSome_shape _ _) fun _ => ?_
  refine bind_shape _ _ (expectStr_shape _ _) fun _ => ?_
  refine bind_shape _ _ (expectSome_shape _ _) fun _ => ?_
  refine bind_shape _ _ (expectStr_shape _ _) fun _ => ?_
  refine bind_shape _ _ (expectSome_shape _ _) fun _ => ?_
  refine bind_shape _ _ (expectStr_shape _ _) fun _ => ?_
  refine bind_shape _ _ (expectSome_shape _ _) fun _ => ?_
  refine bind_shape _ _ (expectStr_shape _ _) fun _ => ?_
  refine bind_shape _ _ (expectSome_shape _ _) fun _ => ?_
  refine bind_shape _ _ (expectStr_shape _ _) fun _ => ?_
  refine bind_shape _ _ (expectSome_shape _ _) fun _ => ?_
  refine bind_shape _ _ (expectStr_shape _ _) fun _ => ?_
  refine bind_shape _ _ (expectSome_shape _ _) fun _ => ?_
  refine bind_shape _ _ (expectSome_shape _ _) fun _ => ?_
  exact Or.inl ⟨_, rfl⟩

/-- Inversion of a successful `from_json`: every required field was a
string that parsed at its target width, and the record's fields are the
parse results; in particular `to` is always `some` of what
`parse_eth_address` produced from the (possibly defaulted) address
string. -/
theorem from_json_ok_fields {v : Json} {r : EVMTransaction}
    (h : EVMTransaction.from_json v = .ok r) :
    (∃ a, parse_eth_address
        ((strip0x (((Json.get v "to").as_str).getD [])).getD fortyZeros) = some a ∧
      r.«to» = some a) ∧
    (∃ s n, (Json.get v "nonce").as_str = some s ∧ parse_u64 s = some n ∧
      r.nonce = n) ∧
    (∃ s n, (Json.get v "value").as_str = some s ∧ parse_u128 s = some n ∧
      r.value = n) ∧
    (∃ s n, (Json.get v "gasLimit").as_str = some s ∧ parse_u128 s = some n ∧
      r.gas_limit = n) ∧
    (∃ s n, (Json.get v "maxPriorityFeePerGas").as_str = some s ∧
      parse_u128 s = some n ∧ r.max_priority_fee_per_gas = n) ∧
    (∃ s n, (Json.get v "maxFeePerGas").as_str = some s ∧ parse_u128 s = some n ∧
      r.max_fee_per_gas = n) ∧
    (∃ s n, (Json.get v "chainId").as_str = some s ∧ parse_u64 s = some n ∧
      r.chain_id = n) ∧
    (∃ bs, hexDecode ((strip0x (((Json.get v "input").as_str).getD [])).getD []) =
        some bs ∧ r.input = bs) ∧
    r.access_list = [] := by
  rw [EVMTransaction.from_json] at h
  simp only [bind_eq_ok_iff, expectSome_eq_ok, expectStr_eq_ok] at h
  obtain ⟨a, ha, ns, hns, n, hn, vs, hvs, vl, hvl, gs, hgs, g, hg, ps, hps, p, hp,
    fs, hfs, f, hf, cs, hcs, c, hc, inp, hinp, hr⟩ := h
  cases hr
  exact ⟨⟨a, ha, rfl⟩, ⟨ns, n, hns, hn, rfl⟩, ⟨vs, vl, hvs, hvl, rfl⟩,
    ⟨gs, g, hgs, hg, rfl⟩, ⟨ps, p, hps, hp, rfl⟩, ⟨fs, f, hfs, hf, rfl⟩,
    ⟨cs, c, hcs, hc, rfl⟩, ⟨inp, hinp, rfl⟩, rfl⟩

/-! ## Claim C4: the three JSON address encodings agree -/

/-- C4: for every 20-byte address, the three legal JSON encodings — a
0x-prefixed 40-hex-character string (as accepted by `from_json`), a
20-element array of integers in 0-255, and a 20-element array of decimal
strings each representing one byte — all ingest to the identical
canonical 20-byte value in the record's `to` field. -/
theorem claim_C4_address_ingestion_equivalence (addr : List Nat)
    (h20 : addr.length = 20) (hb : ∀ b ∈ addr, b < 256) :
    (∀ v r, Json.get v "to" = Json.str ('0' :: 'x' :: hexEncode addr) →
      EVMTransaction.from_json v = .ok r → r.«to» = some addr) ∧
    deserialize_address (Json.arr (addr.map Json.numU)) = .ok (some addr) ∧
    deserialize_address (Json.arr (addr.map (fun b => Json.str (decChars b)))) =
      .ok (some addr) := by
  have hlen40 : (hexEncode addr).length = 40 := by
    rw [hexEncode_length, h20]
  refine ⟨?_, ?_, ?_⟩
  · intro v r hget hok
    obtain ⟨⟨a, ha, hra⟩, -⟩ := from_json_ok_fields hok
    rw [hget] at ha
    have hstr : (Json.str ('0' :: 'x' :: hexEncode addr)).as_str =
        some ('0' :: 'x' :: hexEncode addr) := rfl
    rw [hstr] at ha
    have hstrip : strip0x ('0' :: 'x' :: hexEncode addr) = some (hexEncode addr) := rfl
    simp only [Option.getD_some, hstrip] at ha
    rw [parse_eth_address, if_pos hlen40, hexDecode_hexEncode addr hb] at ha
    cases ha
    exact hra
  · rw [deserialize_address]
    have hnull : (Json.arr (addr.map Json.numU)).is_null = false := rfl
    rw [hnull]
    have harr : (Json.arr (addr.map Json.numU)).as_array = some (addr.map Json.numU) :=
      rfl
    simp only [Bool.false_eq_true, if_false, harr]
    have hlen : (addr.map Json.numU).length = 20 := by rw [List.length_map, h20]
    rw [if_neg (by rw [hlen]; simp)]
    have hall : (addr.map Json.numU).all Json.is_u64 = true := by
      rw [List.all_eq_true]
      intro j hj
      rw [List.mem_map] at hj
      obtain ⟨b, hbi, rfl⟩ := hj
      have : b < 2 ^ 64 := by have := hb b hbi; omega
      simpa [Json.is_u64] using this
    rw [if_pos hall, u64ArrayToBytes_map addr hb]
  · rw [deserialize_address]
    have hnull : (Json.arr (addr.map fun b => Json.str (decChars b))).is_null = false :=
      rfl
    rw [hnull]
    have harr : (Json.arr (addr.map fun b => Json.str (decChars b))).as_array =
        some (addr.map fun b => Json.str (decChars b)) := rfl
    simp only [Bool.false_eq_true, if_false, harr]
    have hlen : (addr.map fun b => Json.str (decChars b)).length = 20 := by
      rw [List.length_map, h20]
    rw [if_neg (by rw [hlen]; simp)]
    have hnotu : (addr.map fun b => Json.str (decChars b)).all Json.is_u64 = false := by
      cases haddr : addr with
      | nil => rw [haddr] at h20; cases h20
      | cons b rest => rfl
    rw [hnotu]
    have hallstr : (addr.map fun b => Json.str (decChars b)).all Json.is_string = true := by
      rw [List.all_eq_true]
      intro j hj
      rw [List.mem_map] at hj
      obtain ⟨b, hbi, rfl⟩ := hj
      rfl
    simp only [Bool.false_eq_true, if_false, if_pos hallstr]
    rw [strArrayToBytes_map addr hb]

/-- Concrete 20-byte address (the one in the repository's own tests). -/
def exAddr : List Nat :=
  [133, 138, 138, 255, 241, 27, 252, 203, 97, 230, 157, 168,
   126, 186, 30, 204, 204, 52, 198, 64]

/-- JSON document whose `to` is the 0x-prefixed hex string of `exAddr`
and whose required numeric fields are all present. -/
def docC4 : Json := Json.obj
  [("to", Json.str ('0' :: 'x' :: hexEncode exAddr)),
   ("nonce", Json.str ['0']),
   ("value", Json.str ['0']),
   ("gasLimit", Json.str ['1']),
   ("maxPriorityFeePerGas", Json.str ['1']),
   ("maxFeePerGas", Json.str ['1']),
   ("chainId", Json.str ['1'])]

/-- The record `from_json` produces for `docC4`. -/
def recC4 : EVMTransaction :=
  { chain_id := 1
    nonce := 0
    «to» := some exAddr
    value := 0
    input := []
    gas_limit := 1
    max_fee_per_gas := 1
    max_priority_fee_per_gas := 1
    access_list := [] }

theorem claim_C4_witness :
    recC4.«to» = some exAddr ∧
    deserialize_address (Json.arr (exAddr.map Json.numU)) = .ok (some exAddr) ∧
    deserialize_address (Json.arr (exAddr.map (fun b => Json.str (decChars b)))) =
      .ok (some exAddr) := by
  have h := claim_C4_address_ingestion_equivalence exAddr (by decide) (by decide)
  exact ⟨h.1 docC4 recC4 rfl rfl, h.2.1, h.2.2⟩

/-! ## Claim C5: a null `to` field -/

/-- JSON document with `to: null` and all required numeric fields. -/
def docC5 : Json := Json.obj
  [("to", Json.null),
   ("nonce", Json.str ['0']),
   ("value", Json.str ['0']),
   ("gasLimit", Json.str ['1']),
   ("maxPriorityFeePerGas", Json.str ['1']),
   ("maxFeePerGas", Json.str ['1']),
   ("chainId", Json.str ['1'])]

/-- The record `from_json` produces for `docC5`: its `to` is the zero
address, not `none`. -/
def recC5 : EVMTransaction :=
  { chain_id := 1
    nonce := 0
    «to» := some (List.replicate 20 0)
    value := 0
    input := []
    gas_limit := 1
    max_fee_per_gas := 1
    max_priority_fee_per_gas := 1
    access_list := [] }

/-- C5 counterexample: on a document whose `to` is null, `from_json`
succeeds but the record's `to` is `some` (the all-zero address), not
absent, refuting the claim for the `from_json` half of ingestion. -/
theorem claim_C5_counterexample :
    EVMTransaction.from_json docC5 = .ok recC5 ∧ recC5.«to» ≠ none :=
  ⟨rfl, by decide⟩

/-- C5 (amended): on a null `to` the typed field deserializer succeeds
and produces an absent address (`none`); `from_json`, however, succeeds
with `to` bound to `some` of the all-zero 20-byte address rather than
leaving it absent. -/
theorem claim_C5_null_to_amended :
    deserialize_address Json.null = .ok none ∧
    (∀ v r, Json.get v "to" = Json.null → EVMTransaction.from_json v = .ok r →
      r.«to» = some (List.replicate 20 0)) := by
  refine ⟨rfl, ?_⟩
  intro v r hget hok
  obtain ⟨⟨a, ha, hra⟩, -⟩ := from_json_ok_fields hok
  rw [hget] at ha
  have h2 : parse_eth_address
      ((strip0x ((Json.null.as_str).getD [])).getD fortyZeros) =
      some (List.replicate 20 0) := rfl
  rw [h2] at ha
  cases ha
  exact hra

theorem claim_C5_witness :
    deserialize_address Json.null = .ok none ∧
    recC5.«to» = some (List.replicate 20 0) :=
  ⟨claim_C5_null_to_amended.1, claim_C5_null_to_amended.2 docC5 recC5 rfl rfl⟩

/-! ## Claim C6: integer address elements above 255 are truncated -/

/-- C6: at the failing input `to = [300, 0, ..., 0]` (20 elements, first
out of the u8 range), `deserialize_address` does not error: it accepts
the array and stores 300 mod 256 = 44, silently truncating the element —
the code slip behind the claim. -/
theorem claim_C6_truncation_at_failing_input :
    deserialize_address (Json.arr (Json.numU 300 :: List.replicate 19 (Json.numU 0))) =
      .ok (some (44 :: List.replicate 19 0)) := rfl

/-! ## Claim C7: malformed address arrays are rejected with a
shape-naming error -/

theorem strArrayToBytes_fails :
    ∀ xs : List Json, xs.all Json.is_string = true →
    (∃ j ∈ xs, ∀ s, j.as_str = some s → parseU8 (trim s) = none) →
    ∃ e, strArrayToBytes xs = .error e ∧ e.expected = "a string representing a u8" := by
  intro xs
  induction xs with
  | nil =>
    rintro - ⟨j, hj, -⟩
    simp at hj
  | cons j0 rest ih =>
    intro hall hex
    rw [List.all_cons, Bool.and_eq_true] at hall
    obtain ⟨h0, hrest⟩ := hall
    cases j0 with
    | str s0 =>
      cases hp : parseU8 (trim s0) with
      | none =>
        refine ⟨⟨String.mk (trim s0), "a string representing a u8"⟩, ?_, rfl⟩
        rw [strArrayToBytes]
        have hstr : (Json.str s0).as_str = some s0 := rfl
        rw [hstr]
        simp only [hp]
      | some b =>
        obtain ⟨j, hj, hfail⟩ := hex
        rw [List.mem_cons] at hj
        rcases hj with rfl | hj
        · have := hfail s0 rfl
          rw [this] at hp
          cases hp
        · obtain ⟨e, he, hee⟩ := ih hrest ⟨j, hj, hfail⟩
          refine ⟨e, ?_, hee⟩
          rw [strArrayToBytes]
          have hstr : (Json.str s0).as_str = some s0 := rfl
          rw [hstr]
          simp only [hp, he]
    | null => simp [Json.is_string] at h0
    | bool b => simp [Json.is_string] at h0
    | numU n => simp [Json.is_string] at h0
    | numOther => simp [Json.is_string] at h0
    | arr elems => simp [Json.is_string] at h0
    | obj fields => simp [Json.is_string] at h0

/-- C7: for every JSON `to` array of wrong length, of mixed type, or of
all strings with a non-numeric element, `deserialize_address` fails with
an error carrying the expected address shape (and, being a total function
into `Except`, it neither panics nor produces an address). -/
theorem claim_C7_malformed_address_rejected (xs : List Json)
    (h : xs.length ≠ 20 ∨
      (xs.all Json.is_u64 = false ∧ xs.all Json.is_string = false) ∨
      (xs.all Json.is_string = true ∧
        ∃ j ∈ xs, ∀ s, j.as_str = some s → parseU8 (trim s) = none)) :
    ∃ e, deserialize_address (Json.arr xs) = .error e ∧
      (e.expected = "20-byte address" ∨
       e.expected = "array of u8 or array of numeric strings" ∨
       e.expected = "a string representing a u8") := by
  have hnull : (Json.arr xs).is_null = false := rfl
  have harr : (Json.arr xs).as_array = some xs := rfl
  rw [deserialize_address, hnull]
  simp only [Bool.false_eq_true, if_false, harr]
  by_cases hlen : xs.length = 20
  · rw [if_neg (by simp [hlen])]
    rcases h with h | ⟨hu, hs⟩ | ⟨hs, j, hj, hfail⟩
    · exact absurd hlen h
    · rw [hu, hs]
      exact ⟨_, rfl, Or.inr (Or.inl rfl)⟩
    · have hu : xs.all Json.is_u64 = false := by
        cases hxs : xs with
        | nil => rw [hxs] at hlen; cases hlen
        | cons j0 rest =>
          rw [hxs] at hs
          rw [List.all_cons, Bool.and_eq_true] at hs
          obtain ⟨h0, -⟩ := hs
          cases j0 <;> simp_all [Json.is_string, Json.is_u64, List.all_cons]
      rw [hu, hs]
      obtain ⟨e, he, hee⟩ := strArrayToBytes_fails xs hs ⟨j, hj, hfail⟩
      simp only [Bool.false_eq_true, if_false, if_true, he]
      exact ⟨e, rfl, Or.inr (Or.inr hee)⟩
  · rw [if_pos hlen]
    exact ⟨_, rfl, Or.inl rfl⟩

theorem claim_C7_witness :
    ∃ e, deserialize_address (Json.arr (List.replicate 19 Json.null)) = .error e ∧
      (e.expected = "20-byte address" ∨
       e.expected = "array of u8 or array of numeric strings" ∨
       e.expected = "a string representing a u8") :=
  claim_C7_malformed_address_rejected (List.replicate 19 Json.null)
    (Or.inl (by decide))

/-! ## Claim C8: missing or unparseable required fields abort from_json -/

/-- C8: whenever any required field (nonce, value, gasLimit,
maxFeePerGas, maxPriorityFeePerGas, chainId) is absent, not a string, or
unparseable at its target width, `from_json` aborts (panics) instead of
returning an error value, and produces no record. -/
theorem claim_C8_required_fields_abort (v : Json)
    (h :
      (¬ ∃ s n, (Json.get v "nonce").as_str = some s ∧ parse_u64 s = some n) ∨
      (¬ ∃ s n, (Json.get v "value").as_str = some s ∧ parse_u128 s = some n) ∨
      (¬ ∃ s n, (Json.get v "gasLimit").as_str = some s ∧ parse_u128 s = some n) ∨
      (¬ ∃ s n, (Json.get v "maxFeePerGas").as_str = some s ∧
        parse_u128 s = some n) ∨
      (¬ ∃ s n, (Json.get v "maxPriorityFeePerGas").as_str = some s ∧
        parse_u128 s = some n) ∨
      (¬ ∃ s n, (Json.get v "chainId").as_str = some s ∧ parse_u64 s = some n)) :
    (∃ m, EVMTransaction.from_json v = .panic m) ∧
    (∀ r, EVMTransaction.from_json v ≠ .ok r) ∧
    (∀ m, EVMTransaction.from_json v ≠ .err m) := by
  have hnotok : ∀ r, EVMTransaction.from_json v ≠ .ok r := by
    intro r hok
    obtain ⟨-, hn, hv, hg, hp, hf, hc, -, -⟩ := from_json_ok_fields hok
    rcases h with h | h | h | h | h | h
    · obtain ⟨s, n, hs, hn2, -⟩ := hn
      exact h ⟨s, n, hs, hn2⟩
    · obtain ⟨s, n, hs, hn2, -⟩ := hv
      exact h ⟨s, n, hs, hn2⟩
    · obtain ⟨s, n, hs, hn2, -⟩ := hg
      exact h ⟨s, n, hs, hn2⟩
    · obtain ⟨s, n, hs, hn2, -⟩ := hf
      exact h ⟨s, n, hs, hn2⟩
    · obtain ⟨s, n, hs, hn2, -⟩ := hp
      exact h ⟨s, n, hs, hn2⟩
    · obtain ⟨s, n, hs, hn2, -⟩ := hc
      exact h ⟨s, n, hs, hn2⟩
  rcases from_json_cases v with ⟨r, hr⟩ | ⟨m, hm⟩
  · exact absurd hr (hnotok r)
  · refine ⟨⟨m, hm⟩, hnotok, ?_⟩
    intro m2 hm2
    rw [hm] at hm2
    cases hm2

theorem claim_C8_witness :
    ∃ m, EVMTransaction.from_json (Json.obj []) = .panic m :=
  (claim_C8_required_fields_abort (Json.obj [])
    (Or.inl (by rintro ⟨s, n, hs, -⟩; exact Option.noConfusion hs))).1

/-! ## Claim C9: from_json never leaves `to` absent -/

/-- C9: `from_json` never produces a record with `to = none`; and when
the `to` field is missing, null, or any value that is not a 0x-prefixed
string, the record's `to` is `some` of the all-zero 20-byte address. -/
theorem claim_C9_to_never_none (v : Json) (r : EVMTransaction)
    (hok : EVMTransaction.from_json v = .ok r) :
    (∃ a, r.«to» = some a) ∧
    ((∀ s, (Json.get v "to").as_str = some s → strip0x s = none) →
      r.«to» = some (List.replicate 20 0)) := by
  obtain ⟨⟨a, ha, hra⟩, -⟩ := from_json_ok_fields hok
  refine ⟨⟨a, hra⟩, ?_⟩
  intro hno
  cases hs : (Json.get v "to").as_str with
  | none =>
    rw [hs] at ha
    have h2 : parse_eth_address
        ((strip0x (((none : Option (List Char))).getD [])).getD fortyZeros) =
        some (List.replicate 20 0) := rfl
    rw [h2] at ha
    cases ha
    exact hra
  | some s =>
    rw [hs, Option.getD_some, hno s hs, Option.getD_none] at ha
    have h2 : parse_eth_address fortyZeros = some (List.replicate 20 0) := rfl
    rw [h2] at ha
    cases ha
    exact hra

/-- JSON document with no `to` key and all required numeric fields. -/
def docC9 : Json := Json.obj
  [("nonce", Json.str ['0']),
   ("value", Json.str ['0']),
   ("gasLimit", Json.str ['1']),
   ("maxPriorityFeePerGas", Json.str ['1']),
   ("maxFeePerGas", Json.str ['1']),
   ("chainId", Json.str ['1'])]

/-- The record `from_json` produces for `docC9`. -/
def recC9 : EVMTransaction :=
  { chain_id := 1
    nonce := 0
    «to» := some (List.replicate 20 0)
    value := 0
    input := []
    gas_limit := 1
    max_fee_per_gas := 1
    max_priority_fee_per_gas := 1
    access_list := [] }

theorem claim_C9_witness :
    (∃ a, recC9.«to» = some a) ∧ recC9.«to» = some (List.replicate 20 0) := by
  have h := claim_C9_to_never_none docC9 recC9 rfl
  exact ⟨h.1, h.2 (fun s hs => Option.noConfusion hs)⟩

/-! ## Claim C10: input defaults to empty, malformed 0x input aborts -/

/-- C10: `from_json` yields an empty `input` whenever the input field is
absent, not a string, or a string without the `0x` prefix (the string is
silently discarded); a `0x`-prefixed string with non-hex content aborts
construction instead. -/
theorem claim_C10_input_behavior (v : Json) :
    (∀ r, EVMTransaction.from_json v = .ok r →
      (∀ s, (Json.get v "input").as_str = some s → strip0x s = none) →
      r.input = []) ∧
    (∀ s rest, (Json.get v "input").as_str = some s → strip0x s = some rest →
      hexDecode rest = none →
      (∃ m, EVMTransaction.from_json v = .panic m) ∧
      (∀ r, EVMTransaction.from_json v ≠ .ok r)) := by
  constructor
  · intro r hok hno
    obtain ⟨-, -, -, -, -, -, -, ⟨bs, hbs, hri⟩, -⟩ := from_json_ok_fields hok
    cases hs : (Json.get v "input").as_str with
    | none =>
      rw [hs] at hbs
      have h2 : hexDecode
          ((strip0x (((none : Option (List Char))).getD [])).getD []) =
          some ([] : List Nat) := rfl
      rw [h2] at hbs
      cases hbs
      exact hri
    | some s =>
      rw [hs, Option.getD_some, hno s hs, Option.getD_none] at hbs
      have h2 : hexDecode ([] : List Char) = some ([] : List Nat) := rfl
      rw [h2] at hbs
      cases hbs
      exact hri
  · intro s rest hs hstrip hnone
    have hnotok : ∀ r, EVMTransaction.from_json v ≠ .ok r := by
      intro r hok
      obtain ⟨-, -, -, -, -, -, -, ⟨bs, hbs, -⟩, -⟩ := from_json_ok_fields hok
      rw [hs, Option.getD_some, hstrip, Option.getD_some, hnone] at hbs
      cases hbs
    rcases from_json_cases v with ⟨r, hr⟩ | ⟨m, hm⟩
    · exact absurd hr (hnotok r)
    · exact ⟨⟨m, hm⟩, hnotok⟩

/-- JSON document whose `input` is a 0x-prefixed string with non-hex
content. -/
def docC10 : Json := Json.obj
  [("input", Json.str ['0', 'x', 'z', 'z']),
   ("nonce", Json.str ['0']),
   ("value", Json.str ['0']),
   ("gasLimit", Json.str ['1']),
   ("maxPriorityFeePerGas", Json.str ['1']),
   ("maxFeePerGas", Json.str ['1']),
   ("chainId", Json.str ['1'])]

theorem claim_C10_witness :
    recC9.input = [] ∧ (∃ m, EVMTransaction.from_json docC10 = .panic m) := by
  refine ⟨(claim_C10_input_behavior docC9).1 recC9 rfl
    (fun s hs => Option.noConfusion hs), ?_⟩
  exact ((claim_C10_input_behavior docC10).2 ['0', 'x', 'z', 'z'] ['z', 'z']
    rfl rfl rfl).1
